import Mathlib

/-!
Shallow embedding of the chords practice-looper core
(`src/components/WavePlayer.tsx` and the practice-mode variant in
`src/unnamed/part_000`).  Times are modelled as rationals; every
definition mirrors one function or event handler of the source.
-/

namespace Chords

/-- A loop region on the timeline.  The source's `end` field is called
`stop` here because `end` is a Lean keyword. -/
structure Region where
  start : ℚ
  stop : ℚ
deriving Repr, DecidableEq

/-- The region validity invariant stated by the spec:
`0 ≤ start < end ≤ duration`. -/
def regionInvariant (duration : ℚ) (r : Region) : Prop :=
  0 ≤ r.start ∧ r.start < r.stop ∧ r.stop ≤ duration

instance (duration : ℚ) (r : Region) : Decidable (regionInvariant duration r) := by
  unfold regionInvariant; infer_instance

/-- `handleSetA` (part_000, lines 687-712): set region start (A) to the
playhead, clamped to `[0, duration]`.  With an existing region the end is
pushed to at least `clampedTime + 0.1`; with no region a default 5 s region
is created, capped at `duration`. -/
def handleSetA (duration currentTime : ℚ) (current : Option Region) : Region :=
  let clampedTime := max 0 (min currentTime duration)
  match current with
  | some r => { start := clampedTime, stop := max (clampedTime + 1/10) r.stop }
  | none => { start := clampedTime, stop := min (clampedTime + 5) duration }

/-- `handleSetB` (part_000, lines 714-739): set region end (B) to the
playhead, clamped to `[0, duration]`.  With an existing region the start is
pushed down to at most `clampedTime - 0.1`; with no region a default 5 s
region ending at the playhead is created, floored at `0`. -/
def handleSetB (duration currentTime : ℚ) (current : Option Region) : Region :=
  let clampedTime := max 0 (min currentTime duration)
  match current with
  | some r => { start := min r.start (clampedTime - 1/10), stop := clampedTime }
  | none => { start := max 0 (clampedTime - 5), stop := clampedTime }

/-- `handleNudgeStart` (part_000, lines 741-752): move the region start by
`delta`, clamped to `[0, end - 0.1]`. -/
def handleNudgeStart (r : Region) (delta : ℚ) : Region :=
  { r with start := max 0 (min (r.start + delta) (r.stop - 1/10)) }

/-- `handleNudgeEnd` (part_000, lines 754-765): move the region end by
`delta`, clamped to `[start + 0.1, duration]`. -/
def handleNudgeEnd (duration : ℚ) (r : Region) (delta : ℚ) : Region :=
  { r with stop := max (r.start + 1/10) (min (r.stop + delta) duration) }

/-- Commands the core can issue to the external playback engine. -/
inductive EngineCmd where
  | seek (t : ℚ)
  | play
  | pause
deriving Repr, DecidableEq

/-- Observable transport state: (position, isPlaying). -/
def applyCmd (st : ℚ × Bool) (c : EngineCmd) : ℚ × Bool :=
  match c with
  | EngineCmd.seek t => (t, st.2)
  | EngineCmd.play => (st.1, true)
  | EngineCmd.pause => (st.1, false)

/-- Run a command list against a transport state. -/
def runCmds (st : ℚ × Bool) (cs : List EngineCmd) : ℚ × Bool :=
  cs.foldl applyCmd st

/-- The loop monitor's polling period (WavePlayer.tsx line 913: `}, 50);`). -/
def loopIntervalMs : ℕ := 50

/-- The loop monitor runs iff playing and a region exists
(WavePlayer.tsx line 898: `if (!isPlaying || !currentRegion) return;`). -/
def loopMonitorActive (isPlaying : Bool) (current : Option Region) : Bool :=
  isPlaying && current.isSome

/-- One tick of the loop monitor (WavePlayer.tsx lines 903-913): if the
reported time has reached the region end, issue a single seek to the region
start; otherwise do nothing.  It never plays or pauses. -/
def loopTickCmds (r : Region) (time : ℚ) : List EngineCmd :=
  if r.stop ≤ time then [EngineCmd.seek r.start] else []

/-- Transport state observed immediately after a tick with reported time
`time` while playing. -/
def posAfterTick (r : Region) (time : ℚ) : ℚ :=
  (runCmds (time, true) (loopTickCmds r time)).1

/-- The main player's `finish` handler (WavePlayer.tsx lines 540-550):
with a region, seek to its start and play; with none, do nothing (playback
stays stopped, `setIsPlaying(false)`). -/
def onFinishCmds (current : Option Region) : List EngineCmd :=
  match current with
  | some r => [EngineCmd.seek r.start, EngineCmd.play]
  | none => []

/-- The practice-mode variant's `finish` handler (part_000, lines 627-637):
it additionally requires the looping flag
(`if (isLoopingRef.current && currentRegionRef.current)`). -/
def onFinishPracticeCmds (isLooping : Bool) (current : Option Region) :
    List EngineCmd :=
  match isLooping, current with
  | true, some r => [EngineCmd.seek r.start, EngineCmd.play]
  | _, _ => []

/-- The `region-created` auto-seek (WavePlayer.tsx lines 482-486): if the
current time is strictly outside `[start, end]`, seek to the region start;
otherwise issue nothing. -/
def regionCreatedSeek (r : Region) (currentTime : ℚ) : Option ℚ :=
  if currentTime < r.start ∨ r.stop < currentTime then some r.start else none

end Chords

namespace Chords

/- ### Claim C4 / C6 / C2 / C5 groundwork is above; theorems follow the
definitions at the end of the file. -/

/-- Round to 3 decimal places (WavePlayer.tsx line 843:
`Math.round(barTime * 1000) / 1000`); `Math.round x = ⌊x + 1/2⌋`, which is
Mathlib's `round`. -/
def round3 (t : ℚ) : ℚ := (round (t * 1000) : ℤ) / 1000

/-- The bar-stepping loop of `getNoteTimestamps` (WavePlayer.tsx lines
836-847): starting at `barTime`, while `barTime ≤ duration` push
`round3 barTime` when `barTime ≥ 0`, then step by `secondsPerBar`.
The `0 < secondsPerBar` guard (always true at the call site) makes the
loop terminating. -/
def barLoop (duration secondsPerBar barTime : ℚ) : List ℚ :=
  if h : 0 < secondsPerBar ∧ barTime ≤ duration then
    (if 0 ≤ barTime then [round3 barTime] else []) ++
      barLoop duration secondsPerBar (barTime + secondsPerBar)
  else []
termination_by (⌈(duration - barTime) / secondsPerBar⌉ + 1).toNat
decreasing_by
  have hs := h.1
  have hbd := h.2
  have h0 : (0 : ℚ) ≤ (duration - barTime) / secondsPerBar :=
    div_nonneg (by linarith) hs.le
  have hc : (0 : ℤ) ≤ ⌈(duration - barTime) / secondsPerBar⌉ := Int.ceil_nonneg h0
  have heq : duration - (barTime + secondsPerBar)
      = (duration - barTime) - secondsPerBar := by ring
  rw [heq, sub_div, div_self (ne_of_gt hs), Int.ceil_sub_one]
  omega

/-- `getNoteTimestamps` (WavePlayer.tsx lines 830-850): empty on degenerate
inputs (`!duration || bpm <= 0 || beatsPerBar <= 0`), otherwise the bar
loop from `offset` with step `(60 / bpm) * beatsPerBar`. -/
def getNoteTimestamps (duration bpm beatsPerBar offset : ℚ) : List ℚ :=
  if duration = 0 ∨ bpm ≤ 0 ∨ beatsPerBar ≤ 0 then []
  else
    let secondsPerBeat := 60 / bpm
    let secondsPerBar := secondsPerBeat * beatsPerBar
    barLoop duration secondsPerBar offset

/-- `getBarWidth` (WavePlayer.tsx lines 853-857). -/
def getBarWidth (bpm beatsPerBar : ℚ) : ℚ :=
  if bpm ≤ 0 ∨ beatsPerBar ≤ 0 then 1
  else 60 / bpm * beatsPerBar

/-- `getSlotsPerBar` (WavePlayer.tsx lines 860-862):
`beatsPerBar > 0 ? beatsPerBar * 4 : 16`. -/
def getSlotsPerBar (beatsPerBar : ℤ) : ℕ :=
  if 0 < beatsPerBar then (beatsPerBar * 4).toNat else 16

/-- Metronome component state: the tempo, the two booleans
`metronomeActive` / `metronomeWasActive`, and the period (ms) of the
currently scheduled interval timer, if any
(`metronomeIntervalRef.current`). -/
structure MetronomeState where
  bpm : ℚ
  active : Bool
  wasActive : Bool
  timerPeriodMs : Option ℚ
deriving Repr, DecidableEq

/-- The interval period programmed by the metronome:
`(60 / bpm) * 1000` milliseconds (WavePlayer.tsx lines 765, 801, 814). -/
def metronomePeriodMs (bpm : ℚ) : ℚ := 60 / bpm * 1000

/-- `toggleMetronome` (WavePlayer.tsx lines 752-779).  Returns the new
state and whether an immediate click was played.  Stopping clears the
timer and both flags; starting (only when `bpm > 0`) plays an immediate
click and schedules the timer. -/
def toggleMetronome (s : MetronomeState) : MetronomeState × Bool :=
  if s.active = true then
    ({ s with active := false, wasActive := false, timerPeriodMs := none }, false)
  else if 0 < s.bpm then
    ({ s with active := true, wasActive := false, timerPeriodMs := some (metronomePeriodMs s.bpm) }, true)
  else (s, false)

/-- The BPM-change metronome `useEffect` body (WavePlayer.tsx lines
796-827).  Active with a live timer: valid bpm reprograms the timer
(no click), invalid bpm suspends and records `wasActive`.  Inactive but
`wasActive` with valid bpm: auto-resume with an immediate click. -/
def metronomeEffect (s : MetronomeState) : MetronomeState × Bool :=
  if s.active = true ∧ s.timerPeriodMs.isSome = true then
    if 0 < s.bpm then
      ({ s with timerPeriodMs := some (metronomePeriodMs s.bpm) }, false)
    else
      ({ s with active := false, wasActive := true, timerPeriodMs := none }, false)
  else if s.active = false ∧ s.wasActive = true ∧ 0 < s.bpm then
    ({ s with active := true, wasActive := false, timerPeriodMs := some (metronomePeriodMs s.bpm) }, true)
  else (s, false)

/-- Events driving the metronome: the user toggle button, and a tempo
edit (which re-runs the effect, as React re-runs it on its `[bpm,
metronomeActive, metronomeWasActive]` dependencies). -/
inductive MetronomeEvent where
  | toggle
  | setBpm (v : ℚ)

/-- One event step of the metronome; the `Bool` records whether an
immediate click was played during the step. -/
def metronomeStep (s : MetronomeState) (e : MetronomeEvent) :
    MetronomeState × Bool :=
  match e with
  | MetronomeEvent.toggle =>
    let t := toggleMetronome s
    let f := metronomeEffect t.1
    (f.1, t.2 || f.2)
  | MetronomeEvent.setBpm v => metronomeEffect { s with bpm := v }

/-- Fold a sequence of tempo edits through the metronome. -/
def runSetBpms (s : MetronomeState) (vs : List ℚ) : MetronomeState :=
  vs.foldl (fun st v => (metronomeStep st (MetronomeEvent.setBpm v)).1) s

/-- Tab annotation store: sparse map from `(timestamp, stringIndex)` keys
to slot arrays (`tabData` in WavePlayer.tsx). -/
def TabData : Type := ℚ × ℕ → Option (List String)

/-- JavaScript array element assignment `arr[i] = v`: in-bounds writes
replace; out-of-bounds writes extend the array (holes read back as empty). -/
def jsArraySet (l : List String) (i : ℕ) (v : String) : List String :=
  if i < l.length then l.set i v
  else l ++ List.replicate (i - l.length) "" ++ [v]

/-- The rebuild step of `setTabNote` (WavePlayer.tsx lines 274-287):
a fresh `slotsPerBar`-length array of empty strings with any existing
values copied to their original indices (`idx < slotsPerBar`). -/
def rebuildNotes (slotsPerBar : ℕ) (existing : Option (List String)) :
    List String :=
  match existing with
  | some old => (List.range slotsPerBar).map (fun idx => old.getD idx "")
  | none => List.replicate slotsPerBar ""

/-- `setTabNote` (WavePlayer.tsx lines 266-297): rebuild the slot array
for the key at the current `slotsPerBar` length, write `value` at
`noteIndex`, and store it back. -/
def setTabNote (slotsPerBar : ℕ) (td : TabData) (key : ℚ × ℕ)
    (noteIndex : ℕ) (value : String) : TabData :=
  let newNotes := jsArraySet (rebuildNotes slotsPerBar (td key)) noteIndex value
  fun k => if k = key then some newNotes else td k

/-- The save-path conversion of the `onTabChange` sync effect
(WavePlayer.tsx lines 310-314): each slot array is flattened with
`v.join('')`. -/
def tabToOldFormat (td : List ((ℚ × ℕ) × List String)) :
    List ((ℚ × ℕ) × String) :=
  td.map (fun kv => (kv.1, String.join kv.2))

/-- The load-path conversion of the `initialTabData` effect
(WavePlayer.tsx lines 215-225): every entry arriving as a flat string is
replaced by a full-length array of empty strings — the characters of the
string are not re-placed into slots. -/
def tabFromOldFormat (slotsPerBar : ℕ) (old : List ((ℚ × ℕ) × String)) :
    List ((ℚ × ℕ) × List String) :=
  old.map (fun kv => (kv.1, List.replicate slotsPerBar ""))

end Chords

namespace Chords

/-! ### Theorems settling the claims -/

/-- C4: for every degenerate tempo configuration (`duration = 0`,
`bpm ≤ 0`, or `beatsPerBar ≤ 0`) and any values of the remaining
parameters, `getNoteTimestamps` returns the empty timestamp list. -/
theorem c4_degenerate_tempo_empty_grid (duration bpm beatsPerBar offset : ℚ)
    (h : duration = 0 ∨ bpm ≤ 0 ∨ beatsPerBar ≤ 0) :
    getNoteTimestamps duration bpm beatsPerBar offset = [] := by
  unfold getNoteTimestamps
  rw [if_pos h]

theorem c4_degenerate_tempo_empty_grid_witness :
    getNoteTimestamps 7 0 4 (1/2) = [] :=
  c4_degenerate_tempo_empty_grid 7 0 4 (1/2) (Or.inr (Or.inl le_rfl))

/-- C6: on region creation, a playback position strictly outside
`[start, end]` triggers a seek to `start`; a position inside issues no
seek; in particular creating `[10, 15]` while at `t = 20` seeks to `10`. -/
theorem c6_region_created_autoseek :
    (∀ (r : Region) (t : ℚ), (t < r.start ∨ r.stop < t) →
      regionCreatedSeek r t = some r.start) ∧
    (∀ (r : Region) (t : ℚ), r.start ≤ t → t ≤ r.stop →
      regionCreatedSeek r t = none) ∧
    regionCreatedSeek ⟨10, 15⟩ 20 = some 10 := by
  refine ⟨?_, ?_, ?_⟩
  · intro r t h
    unfold regionCreatedSeek
    rw [if_pos h]
  · intro r t h1 h2
    unfold regionCreatedSeek
    rw [if_neg]
    push_neg
    exact ⟨h1, h2⟩
  · norm_num [regionCreatedSeek]

theorem c6_region_created_autoseek_witness :
    regionCreatedSeek ⟨0, 5⟩ 7 = some 0 ∧ regionCreatedSeek ⟨0, 5⟩ 3 = none :=
  ⟨c6_region_created_autoseek.1 ⟨0, 5⟩ 7 (Or.inr (by norm_num)),
   c6_region_created_autoseek.2.1 ⟨0, 5⟩ 3 (by norm_num) (by norm_num)⟩

/-- C2: the loop monitor polls every 50 ms, runs exactly when playing with
a region present, and on any tick whose reported time has reached the
region end it issues a single seek to the region start — never a play or a
pause — so the position observed right after that tick is the start, which
is strictly below the end. -/
theorem c2_loop_monitor_snaps_back :
    loopIntervalMs = 50 ∧
    (∀ (p : Bool) (c : Option Region),
      loopMonitorActive p c = true ↔ p = true ∧ c.isSome = true) ∧
    (∀ (r : Region) (t : ℚ), r.start < r.stop → r.stop ≤ t →
      loopTickCmds r t = [EngineCmd.seek r.start] ∧
      EngineCmd.play ∉ loopTickCmds r t ∧
      EngineCmd.pause ∉ loopTickCmds r t ∧
      posAfterTick r t = r.start ∧ posAfterTick r t < r.stop) := by
  refine ⟨rfl, ?_, ?_⟩
  · intro p c
    simp [loopMonitorActive, Bool.and_eq_true]
  · intro r t hr ht
    have hc : loopTickCmds r t = [EngineCmd.seek r.start] := by
      unfold loopTickCmds
      rw [if_pos ht]
    have hp : posAfterTick r t = r.start := by
      unfold posAfterTick
      rw [hc]
      rfl
    refine ⟨hc, ?_, ?_, hp, ?_⟩
    · rw [hc]; simp
    · rw [hc]; simp
    · rw [hp]; exact hr

theorem c2_loop_monitor_snaps_back_witness :
    loopTickCmds ⟨1, 2⟩ 3 = [EngineCmd.seek 1] ∧
    EngineCmd.play ∉ loopTickCmds ⟨1, 2⟩ 3 ∧
    EngineCmd.pause ∉ loopTickCmds ⟨1, 2⟩ 3 ∧
    posAfterTick ⟨1, 2⟩ 3 = 1 ∧ posAfterTick ⟨1, 2⟩ 3 < 2 :=
  c2_loop_monitor_snaps_back.2.2 ⟨1, 2⟩ 3 (by norm_num) (by norm_num)

/-- C5 counterexample: in the practice-mode `finish` handler a region
(`[1, 2]`) exists but looping is off; contrary to the claim, no seek is
issued and playback does not resume — it simply stops. -/
theorem c5_finish_counterexample :
    onFinishPracticeCmds false (some ⟨1, 2⟩) = [] ∧
    runCmds (2, false) (onFinishPracticeCmds false (some ⟨1, 2⟩)) = (2, false) :=
  ⟨rfl, rfl⟩

/-- C5 (amended): in the main player, natural end-of-track with a region
seeks to the region start and resumes playing, and stops with no region;
in the practice-mode variant the seek-and-resume additionally requires the
looping flag — with looping off playback stops even when a region exists. -/
theorem c5_finish_behavior :
    (∀ (r : Region) (d : ℚ),
      runCmds (d, false) (onFinishCmds (some r)) = (r.start, true)) ∧
    (∀ d : ℚ, runCmds (d, false) (onFinishCmds none) = (d, false)) ∧
    (∀ (r : Region) (d : ℚ),
      runCmds (d, false) (onFinishPracticeCmds true (some r)) = (r.start, true)) ∧
    (∀ (c : Option Region) (d : ℚ),
      runCmds (d, false) (onFinishPracticeCmds false c) = (d, false)) ∧
    (∀ (l : Bool) (d : ℚ),
      runCmds (d, false) (onFinishPracticeCmds l none) = (d, false)) := by
  refine ⟨fun r d => rfl, fun d => rfl, fun r d => rfl, ?_, ?_⟩
  · rintro (_ | c) d <;> rfl
  · rintro (_ | _) d <;> rfl

/-- C10: the persisted tab shape does not round-trip: saving flattens each
slot array with `join('')` (losing positions — two different slot arrays
flatten identically), and loading replaces every flat-string entry by a
full-length array of empty strings, so stored characters are lost. -/
theorem c10_tab_roundtrip_loses_content :
    (∀ (slots : ℕ) (td : List ((ℚ × ℕ) × List String)),
      tabFromOldFormat slots (tabToOldFormat td)
        = td.map (fun kv => (kv.1, List.replicate slots ""))) ∧
    String.join ["", "7"] = String.join ["7", ""] ∧
    tabFromOldFormat 4 (tabToOldFormat [((0, 0), ["", "7", "", ""])])
      = [((0, 0), ["", "", "", ""])] := by
  refine ⟨?_, rfl, rfl⟩
  intro slots td
  unfold tabFromOldFormat tabToOldFormat
  rw [List.map_map]
  rfl

end Chords

namespace Chords

/-- A tempo edit leaves a metronome that is off without resume-intent
(off by user) off: neither effect branch fires. -/
lemma metronome_setBpm_keeps_off (s : MetronomeState) (v : ℚ)
    (h1 : s.active = false) (h2 : s.wasActive = false) :
    (metronomeStep s (MetronomeEvent.setBpm v)).1.active = false ∧
    (metronomeStep s (MetronomeEvent.setBpm v)).1.wasActive = false := by
  simp [metronomeStep, metronomeEffect, h1, h2]

/-- Any sequence of tempo edits leaves a user-stopped metronome off. -/
lemma metronome_runSetBpms_keeps_off :
    ∀ (vs : List ℚ) (s : MetronomeState), s.active = false → s.wasActive = false →
      (runSetBpms s vs).active = false ∧ (runSetBpms s vs).wasActive = false := by
  intro vs
  induction vs with
  | nil => intro s h1 h2; exact ⟨h1, h2⟩
  | cons v vs ih =>
    intro s h1 h2
    have h := metronome_setBpm_keeps_off s v h1 h2
    have : runSetBpms s (v :: vs)
        = runSetBpms (metronomeStep s (MetronomeEvent.setBpm v)).1 vs := by
      simp [runSetBpms, List.foldl_cons]
    rw [this]
    exact ih _ h.1 h.2

/-- C7: an invalid tempo while active suspends the metronome and records
`wasActive`; a later valid tempo auto-resumes it with an immediate click;
and after a user-initiated stop no sequence of tempo edits ever reactivates
it. -/
theorem c7_metronome_suspend_resume :
    (∀ (s : MetronomeState) (v : ℚ), s.active = true →
      s.timerPeriodMs.isSome = true → v ≤ 0 →
      (metronomeStep s (MetronomeEvent.setBpm v)).1
        = { s with bpm := v, active := false, wasActive := true, timerPeriodMs := none }) ∧
    (∀ (s : MetronomeState) (v : ℚ), s.active = false →
      s.wasActive = true → 0 < v →
      (metronomeStep s (MetronomeEvent.setBpm v)).1
        = { s with bpm := v, active := true, wasActive := false, timerPeriodMs := some (metronomePeriodMs v) } ∧
      (metronomeStep s (MetronomeEvent.setBpm v)).2 = true) ∧
    (∀ s : MetronomeState, s.active = true →
      ((metronomeStep s MetronomeEvent.toggle).1.active = false ∧
       (metronomeStep s MetronomeEvent.toggle).1.wasActive = false) ∧
      ∀ vs : List ℚ,
        (runSetBpms (metronomeStep s MetronomeEvent.toggle).1 vs).active = false) := by
  refine ⟨?_, ?_, ?_⟩
  · intro s v ha ht hv
    simp [metronomeStep, metronomeEffect, ha, ht, not_lt.mpr hv]
  · intro s v ha hw hv
    simp [metronomeStep, metronomeEffect, ha, hw, hv]
  · intro s ha
    have hoff : (metronomeStep s MetronomeEvent.toggle).1.active = false ∧
        (metronomeStep s MetronomeEvent.toggle).1.wasActive = false := by
      simp [metronomeStep, toggleMetronome, metronomeEffect, ha]
    exact ⟨hoff, fun vs =>
      (metronome_runSetBpms_keeps_off vs _ hoff.1 hoff.2).1⟩

theorem c7_metronome_suspend_resume_witness :
    (metronomeStep ⟨120, true, false, some 500⟩ (MetronomeEvent.setBpm 0)).1
      = ⟨0, false, true, none⟩ ∧
    (metronomeStep ⟨0, false, true, none⟩ (MetronomeEvent.setBpm 90)).1
      = ⟨90, true, false, some (metronomePeriodMs 90)⟩ ∧
    (metronomeStep ⟨0, false, true, none⟩ (MetronomeEvent.setBpm 90)).2 = true ∧
    (runSetBpms (metronomeStep ⟨120, true, false, some 500⟩ MetronomeEvent.toggle).1
      [0, 90, 240]).active = false := by
  have h1 := c7_metronome_suspend_resume.1 ⟨120, true, false, some 500⟩ 0 rfl rfl le_rfl
  have h2 := c7_metronome_suspend_resume.2.1 ⟨0, false, true, none⟩ 90 rfl rfl (by norm_num)
  have h3 := (c7_metronome_suspend_resume.2.2 ⟨120, true, false, some 500⟩ rfl).2 [0, 90, 240]
  exact ⟨h1, h2.1, h2.2, h3⟩

/-- C8 counterexample: changing tempo 120 → 100 while the metronome is
active reprograms the timer to the 600 ms period but plays no immediate
click, contrary to the claim's "immediate click to re-anchor". -/
theorem c8_bpm_change_counterexample :
    (metronomeStep ⟨120, true, false, some 500⟩ (MetronomeEvent.setBpm 100)).1.timerPeriodMs
      = some 600 ∧
    (metronomeStep ⟨120, true, false, some 500⟩ (MetronomeEvent.setBpm 100)).2 = false := by
  constructor <;> norm_num [metronomeStep, metronomeEffect, metronomePeriodMs]

/-- C8 (amended): changing the tempo to another valid bpm while active
cancels the old timer and schedules a new one with period `60 / bpm`
seconds (`metronomePeriodMs`), leaving the metronome active; no immediate
click is played at the moment of the change. -/
theorem c8_bpm_change_reprograms_timer (s : MetronomeState) (v : ℚ)
    (ha : s.active = true) (ht : s.timerPeriodMs.isSome = true) (hv : 0 < v) :
    (metronomeStep s (MetronomeEvent.setBpm v)).1
      = { s with bpm := v, timerPeriodMs := some (metronomePeriodMs v) } ∧
    (metronomeStep s (MetronomeEvent.setBpm v)).2 = false := by
  simp [metronomeStep, metronomeEffect, ha, ht, hv]

theorem c8_bpm_change_reprograms_timer_witness :
    (metronomeStep ⟨120, true, false, some 500⟩ (MetronomeEvent.setBpm 200)).1
      = ⟨200, true, false, some 300⟩ ∧
    (metronomeStep ⟨120, true, false, some 500⟩ (MetronomeEvent.setBpm 200)).2 = false := by
  have h := c8_bpm_change_reprograms_timer ⟨120, true, false, some 500⟩ 200
    rfl rfl (by norm_num)
  refine ⟨?_, h.2⟩
  rw [h.1]
  norm_num [metronomePeriodMs]

end Chords

namespace Chords

/-- Nudging the start preserves the region invariant. -/
lemma nudgeStart_invariant (d : ℚ) (r : Region) (δ : ℚ)
    (h : regionInvariant d r) : regionInvariant d (handleNudgeStart r δ) := by
  obtain ⟨h0, hse, hed⟩ := h
  refine ⟨le_max_left _ _, ?_, hed⟩
  show max 0 (min (r.start + δ) (r.stop - 1/10)) < r.stop
  have h1 : min (r.start + δ) (r.stop - 1/10) ≤ r.stop - 1/10 := min_le_right _ _
  have h2 : 0 < r.stop := lt_of_le_of_lt h0 hse
  exact max_lt h2 (by linarith)

/-- Nudging the end preserves the region invariant provided at least the
minimum length of room remains below `duration`. -/
lemma nudgeEnd_invariant (d : ℚ) (r : Region) (δ : ℚ)
    (h : regionInvariant d r) (hroom : r.start + 1/10 ≤ d) :
    regionInvariant d (handleNudgeEnd d r δ) := by
  obtain ⟨h0, hse, hed⟩ := h
  refine ⟨h0, ?_, ?_⟩
  · show r.start < max (r.start + 1/10) (min (r.stop + δ) d)
    exact lt_of_lt_of_le (by linarith) (le_max_left _ _)
  · show max (r.start + 1/10) (min (r.stop + δ) d) ≤ d
    exact max_le hroom (min_le_right _ _)

/-- Set A on an existing region: invariant plus minimum length, when the
playhead leaves minimum-length room below `duration`. -/
lemma setA_some_invariant (d t : ℚ) (r : Region) (h : regionInvariant d r)
    (ht0 : 0 ≤ t) (htd : t + 1/10 ≤ d) :
    regionInvariant d (handleSetA d t (some r)) ∧
    1/10 ≤ (handleSetA d t (some r)).stop - (handleSetA d t (some r)).start := by
  obtain ⟨h0, hse, hed⟩ := h
  have htd' : t ≤ d := by linarith
  have hc : max 0 (min t d) = t := by rw [min_eq_left htd', max_eq_right ht0]
  constructor
  · refine ⟨le_max_left _ _, ?_, ?_⟩
    · show max 0 (min t d) < max (max 0 (min t d) + 1/10) r.stop
      rw [hc]
      exact lt_of_lt_of_le (by linarith) (le_max_left _ _)
    · show max (max 0 (min t d) + 1/10) r.stop ≤ d
      rw [hc]
      exact max_le (by linarith) hed
  · show 1/10 ≤ max (max 0 (min t d) + 1/10) r.stop - max 0 (min t d)
    rw [hc]
    have := le_max_left (t + 1/10) r.stop
    linarith

/-- Set B on an existing region: invariant plus minimum length, when the
playhead leaves minimum-length room above `0`. -/
lemma setB_some_invariant (d t : ℚ) (r : Region) (h : regionInvariant d r)
    (ht1 : 1/10 ≤ t) (htd : t ≤ d) :
    regionInvariant d (handleSetB d t (some r)) ∧
    1/10 ≤ (handleSetB d t (some r)).stop - (handleSetB d t (some r)).start := by
  obtain ⟨h0, hse, hed⟩ := h
  have ht0 : (0 : ℚ) ≤ t := by linarith
  have hc : max 0 (min t d) = t := by rw [min_eq_left htd, max_eq_right ht0]
  constructor
  · refine ⟨?_, ?_, ?_⟩
    · show 0 ≤ min r.start (max 0 (min t d) - 1/10)
      rw [hc]
      exact le_min h0 (by linarith)
    · show min r.start (max 0 (min t d) - 1/10) < max 0 (min t d)
      rw [hc]
      exact lt_of_le_of_lt (min_le_right _ _) (by linarith)
    · show max 0 (min t d) ≤ d
      rw [hc]; exact htd
  · show 1/10 ≤ max 0 (min t d) - min r.start (max 0 (min t d) - 1/10)
    rw [hc]
    have := min_le_right r.start (t - 1/10)
    linarith

/-- Fresh creation via Set A: invariant holds for playheads strictly
before `duration`. -/
lemma setA_none_invariant (d t : ℚ) (ht0 : 0 ≤ t) (htd : t < d) :
    regionInvariant d (handleSetA d t none) := by
  have hc : max 0 (min t d) = t := by rw [min_eq_left htd.le, max_eq_right ht0]
  refine ⟨le_max_left _ _, ?_, ?_⟩
  · show max 0 (min t d) < min (max 0 (min t d) + 5) d
    rw [hc]
    exact lt_min (by linarith) htd
  · show min (max 0 (min t d) + 5) d ≤ d
    exact min_le_right _ _

/-- Fresh creation via Set B: invariant holds for playheads strictly
after `0`. -/
lemma setB_none_invariant (d t : ℚ) (ht0 : 0 < t) (htd : t ≤ d) :
    regionInvariant d (handleSetB d t none) := by
  have hc : max 0 (min t d) = t := by rw [min_eq_left htd, max_eq_right ht0.le]
  refine ⟨le_max_left _ _, ?_, ?_⟩
  · show max 0 (max 0 (min t d) - 5) < max 0 (min t d)
    rw [hc]
    exact max_lt ht0 (by linarith)
  · show max 0 (min t d) ≤ d
    rw [hc]; exact htd

/-- C1 counterexample: `duration = 10`, existing region `[5, 10]` satisfies
the invariant and the playhead `t = 0` lies in `[0, duration]`, yet Set B
produces the region `[-0.1, 0]`, whose start is negative — the claimed
invariant `0 ≤ start < end ≤ duration` fails. -/
theorem c1_region_invariant_counterexample :
    regionInvariant 10 ⟨5, 10⟩ ∧ (0 : ℚ) ≤ 0 ∧ (0 : ℚ) ≤ 10 ∧
    handleSetB 10 0 (some ⟨5, 10⟩) = ⟨-1/10, 0⟩ ∧
    ¬ regionInvariant 10 (handleSetB 10 0 (some ⟨5, 10⟩)) := by
  norm_num [handleSetB, regionInvariant, min_def, max_def, Region.mk.injEq]

/-- C1 (amended): nudge-start always preserves
`0 ≤ start < end ≤ duration`; nudge-end preserves it whenever
`start + 0.1 ≤ duration`; Set A / Set B on an existing region yield an
invariant-satisfying region of length ≥ 0.1 (pushing the other boundary
rather than failing) whenever the playhead keeps 0.1 s of room on the
pushed side (`t + 0.1 ≤ duration` for Set A, `0.1 ≤ t` for Set B); fresh
creation satisfies the invariant for `0 ≤ t < duration` (Set A) and
`0 < t ≤ duration` (Set B).  At boundary playheads the operations can
leave `[0, duration]`, as the counterexample shows. -/
theorem c1_region_ops_invariant :
    (∀ (d : ℚ) (r : Region) (δ : ℚ), regionInvariant d r →
      regionInvariant d (handleNudgeStart r δ)) ∧
    (∀ (d : ℚ) (r : Region) (δ : ℚ), regionInvariant d r →
      r.start + 1/10 ≤ d → regionInvariant d (handleNudgeEnd d r δ)) ∧
    (∀ (d t : ℚ) (r : Region), regionInvariant d r → 0 ≤ t → t + 1/10 ≤ d →
      regionInvariant d (handleSetA d t (some r)) ∧
      1/10 ≤ (handleSetA d t (some r)).stop - (handleSetA d t (some r)).start) ∧
    (∀ (d t : ℚ) (r : Region), regionInvariant d r → 1/10 ≤ t → t ≤ d →
      regionInvariant d (handleSetB d t (some r)) ∧
      1/10 ≤ (handleSetB d t (some r)).stop - (handleSetB d t (some r)).start) ∧
    (∀ d t : ℚ, 0 ≤ t → t < d → regionInvariant d (handleSetA d t none)) ∧
    (∀ d t : ℚ, 0 < t → t ≤ d → regionInvariant d (handleSetB d t none)) :=
  ⟨nudgeStart_invariant, nudgeEnd_invariant, setA_some_invariant,
   setB_some_invariant, setA_none_invariant, setB_none_invariant⟩

theorem c1_region_ops_invariant_witness :
    regionInvariant 10 (handleNudgeStart ⟨2, 5⟩ (-3)) ∧
    regionInvariant 10 (handleNudgeEnd 10 ⟨2, 5⟩ 100) ∧
    regionInvariant 10 (handleSetA 10 3 (some ⟨2, 5⟩)) ∧
    regionInvariant 10 (handleSetB 10 3 (some ⟨2, 5⟩)) ∧
    regionInvariant 10 (handleSetA 10 3 none) ∧
    regionInvariant 10 (handleSetB 10 3 none) := by
  have hinv : regionInvariant 10 ⟨2, 5⟩ := by norm_num [regionInvariant]
  exact ⟨c1_region_ops_invariant.1 10 ⟨2, 5⟩ (-3) hinv,
    c1_region_ops_invariant.2.1 10 ⟨2, 5⟩ 100 hinv (by norm_num),
    (c1_region_ops_invariant.2.2.1 10 3 ⟨2, 5⟩ hinv (by norm_num) (by norm_num)).1,
    (c1_region_ops_invariant.2.2.2.1 10 3 ⟨2, 5⟩ hinv (by norm_num) (by norm_num)).1,
    c1_region_ops_invariant.2.2.2.2.1 10 3 (by norm_num) (by norm_num),
    c1_region_ops_invariant.2.2.2.2.2 10 3 (by norm_num) (by norm_num)⟩

end Chords

namespace Chords

/-- C9: every `setTabNote` write rebuilds the stored array at the current
`slotsPerBar = 4 × beatsPerBar` length, re-placing old values at their
original indices and filling the rest with empty strings, then writes the
new value at the slot index; in particular writing slot 5 after
`slotsPerBar` grows from 4 to 16 keeps the original 4 values at indices
0-3 and an empty-filled tail. -/
theorem c9_tab_cell_resize :
    (∀ b : ℤ, 0 < b → (getSlotsPerBar b : ℤ) = 4 * b) ∧
    (∀ (slots : ℕ) (td : TabData) (key : ℚ × ℕ) (old : List String)
      (i : ℕ) (v : String), td key = some old → i < slots →
      ∃ arr, setTabNote slots td key i v key = some arr ∧
        arr.length = slots ∧
        ∀ j, j < slots → arr.getD j "" = if j = i then v else old.getD j "") ∧
    getSlotsPerBar 1 = 4 ∧ getSlotsPerBar 4 = 16 ∧
    setTabNote 16 (fun k => if k = ((0 : ℚ), 0) then some ["0", "1", "2", "3"] else none)
        ((0 : ℚ), 0) 5 "7" ((0 : ℚ), 0)
      = some ["0", "1", "2", "3", "", "7", "", "", "", "", "", "", "", "", "", ""] := by
  refine ⟨?_, ?_, by decide, by decide, by decide⟩
  · intro b hb
    unfold getSlotsPerBar
    rw [if_pos hb, Int.toNat_of_nonneg (by omega)]
    ring
  · intro slots td key old i v hold hi
    have hre : rebuildNotes slots (td key)
        = (List.range slots).map (fun idx => old.getD idx "") := by
      rw [hold]
      rfl
    have hLlen : ((List.range slots).map (fun idx => old.getD idx "")).length
        = slots := by simp
    have hiL : i < ((List.range slots).map (fun idx => old.getD idx "")).length := by
      rw [hLlen]; exact hi
    refine ⟨jsArraySet (rebuildNotes slots (td key)) i v, by simp [setTabNote], ?_, ?_⟩
    · rw [hre]
      unfold jsArraySet
      rw [if_pos hiL, List.length_set, hLlen]
    · intro j hj
      rw [hre]
      unfold jsArraySet
      rw [if_pos hiL]
      by_cases hji : j = i
      · subst hji
        rw [if_pos rfl, List.getD_eq_getElem?_getD,
          List.getElem?_set_eq_of_lt _ hiL]
        rfl
      · rw [if_neg hji, List.getD_eq_getElem?_getD,
          List.getElem?_set_ne (Ne.symm hji), List.getElem?_map,
          List.getElem?_range hj]
        rfl

end Chords

namespace Chords

theorem c9_tab_cell_resize_witness :
    (getSlotsPerBar 4 : ℤ) = 4 * 4 ∧
    ∃ arr,
      setTabNote 16 (fun k => if k = ((0 : ℚ), 0) then some ["0", "1", "2", "3"] else none)
          ((0 : ℚ), 0) 5 "7" ((0 : ℚ), 0) = some arr ∧
      arr.length = 16 ∧
      ∀ j, j < 16 →
        arr.getD j "" = if j = 5 then "7" else (["0", "1", "2", "3"]).getD j "" :=
  ⟨c9_tab_cell_resize.1 4 (by decide),
   c9_tab_cell_resize.2.1 16
     (fun k => if k = ((0 : ℚ), 0) then some ["0", "1", "2", "3"] else none)
     ((0 : ℚ), 0) ["0", "1", "2", "3"] 5 "7" (by decide) (by decide)⟩

end Chords

namespace Chords

/-- Membership in the bar-stepping loop: exactly the grid points
`b + k * s` that lie in `[0, duration]`, each rounded to milliseconds. -/
lemma mem_barLoop (d s : ℚ) (hs : 0 < s) :
    ∀ b x, x ∈ barLoop d s b ↔
      ∃ k : ℕ, 0 ≤ b + k * s ∧ b + k * s ≤ d ∧ x = round3 (b + k * s) := by
  suffices H : ∀ (n : ℕ) (b : ℚ), (⌈(d - b) / s⌉ + 1).toNat ≤ n → ∀ x,
      (x ∈ barLoop d s b ↔
        ∃ k : ℕ, 0 ≤ b + k * s ∧ b + k * s ≤ d ∧ x = round3 (b + k * s)) by
    intro b x
    exact H _ b le_rfl x
  intro n
  induction n with
  | zero =>
    intro b hb x
    have hceil : ⌈(d - b) / s⌉ ≤ -1 := by omega
    have hdb : (d - b) / s ≤ -1 := by
      have := Int.ceil_le.mp hceil
      simpa using this
    have hbd : d < b := by
      have h1 : d - b ≤ -s := by
        have := (div_le_iff₀ hs).mp hdb
        linarith
      linarith
    rw [barLoop.eq_def, dif_neg (fun hc => absurd hc.2 (not_le.mpr hbd))]
    simp only [List.not_mem_nil, false_iff]
    rintro ⟨k, h1, h2, h3⟩
    have hks : 0 ≤ (k : ℚ) * s := mul_nonneg (Nat.cast_nonneg k) hs.le
    linarith
  | succ n ih =>
    intro b hb x
    by_cases hbd : b ≤ d
    · have hnn : (0 : ℚ) ≤ (d - b) / s := div_nonneg (by linarith) hs.le
      have hc0 : (0 : ℤ) ≤ ⌈(d - b) / s⌉ := Int.ceil_nonneg hnn
      have hstepceil : ⌈(d - (b + s)) / s⌉ = ⌈(d - b) / s⌉ - 1 := by
        have heq : d - (b + s) = (d - b) - s := by ring
        rw [heq, sub_div, div_self (ne_of_gt hs), Int.ceil_sub_one]
      have hmeas : (⌈(d - (b + s)) / s⌉ + 1).toNat ≤ n := by
        rw [hstepceil]
        omega
      rw [barLoop.eq_def, dif_pos ⟨hs, hbd⟩]
      rw [List.mem_append, ih (b + s) hmeas x]
      constructor
      · rintro (hx | ⟨k, h1, h2, h3⟩)
        · by_cases h0b : 0 ≤ b
          · rw [if_pos h0b, List.mem_singleton] at hx
            refine ⟨0, ?_, ?_, ?_⟩
            · push_cast
              linarith
            · push_cast
              linarith
            · rw [hx]
              push_cast
              ring_nf
          · rw [if_neg h0b] at hx
            exact absurd hx (List.not_mem_nil x)
        · have hk : (b + s) + (k : ℚ) * s = b + ((k + 1 : ℕ) : ℚ) * s := by
            push_cast
            ring
          refine ⟨k + 1, ?_, ?_, ?_⟩
          · rw [← hk]; exact h1
          · rw [← hk]; exact h2
          · rw [← hk]; exact h3
      · rintro ⟨k, h1, h2, h3⟩
        cases k with
        | zero =>
          left
          have hb0 : 0 ≤ b := by
            push_cast at h1
            linarith
          have hbb : b + ((0 : ℕ) : ℚ) * s = b := by push_cast; ring
          rw [if_pos hb0, List.mem_singleton, h3, hbb]
        | succ k =>
          right
          have hk : b + ((k + 1 : ℕ) : ℚ) * s = (b + s) + (k : ℚ) * s := by
            push_cast
            ring
          refine ⟨k, ?_, ?_, ?_⟩
          · rw [← hk]; exact_mod_cast h1
          · rw [← hk]; exact_mod_cast h2
          · rw [← hk]; exact_mod_cast h3
    · rw [barLoop.eq_def, dif_neg (fun hc => hbd hc.2)]
      simp only [List.not_mem_nil, false_iff]
      rintro ⟨k, h1, h2, h3⟩
      have hks : 0 ≤ (k : ℚ) * s := mul_nonneg (Nat.cast_nonneg k) hs.le
      have : b ≤ d := by linarith
      exact hbd this

end Chords

namespace Chords

/-- C3: the bar grid steps from `offset` in increments of
`barWidth = (60 / bpm) * beatsPerBar`, keeping exactly the grid points
that are `≥ 0` and `≤ duration` (boundary-inclusive), each rounded to
millisecond precision; for `bpm = 120`, `beatsPerBar = 4`, `offset = 0`,
`duration = 10` it returns `[0, 2, 4, 6, 8, 10]`. -/
theorem c3_bar_grid_stepping :
    getNoteTimestamps 10 120 4 0 = [0, 2, 4, 6, 8, 10] ∧
    getBarWidth 120 4 = 2 ∧
    (∀ duration bpm beatsPerBar offset x : ℚ,
      0 < bpm → 0 < beatsPerBar → duration ≠ 0 →
      (x ∈ getNoteTimestamps duration bpm beatsPerBar offset ↔
        ∃ k : ℕ, 0 ≤ offset + k * (60 / bpm * beatsPerBar) ∧
          offset + k * (60 / bpm * beatsPerBar) ≤ duration ∧
          x = round3 (offset + k * (60 / bpm * beatsPerBar)))) := by
  refine ⟨?_, ?_, ?_⟩
  · rw [getNoteTimestamps]
    norm_num
    rw [barLoop.eq_def]; norm_num [round3]
    rw [barLoop.eq_def]; norm_num [round3]
    rw [barLoop.eq_def]; norm_num [round3]
    rw [barLoop.eq_def]; norm_num [round3]
    rw [barLoop.eq_def]; norm_num [round3]
    rw [barLoop.eq_def]; norm_num [round3]
    rw [barLoop.eq_def]; norm_num
  · norm_num [getBarWidth]
  · intro d bpm bpb off x hbpm hbpb hd
    have hstep : 0 < 60 / bpm * bpb := by positivity
    unfold getNoteTimestamps
    rw [if_neg (by push_neg; exact ⟨hd, hbpm, hbpb⟩)]
    exact mem_barLoop d _ hstep off x

theorem c3_bar_grid_stepping_witness :
    (4 : ℚ) ∈ getNoteTimestamps 10 120 4 0 ↔
      ∃ k : ℕ, 0 ≤ (0 : ℚ) + k * (60 / 120 * 4) ∧
        (0 : ℚ) + k * (60 / 120 * 4) ≤ 10 ∧
        (4 : ℚ) = round3 ((0 : ℚ) + k * (60 / 120 * 4)) :=
  c3_bar_grid_stepping.2.2 10 120 4 0 4 (by norm_num) (by norm_num) (by norm_num)

end Chords
